import Mathlib

/-!
Verification of the ntx task-composition runner (src/src/index.ts).

The TypeScript source is shallowly embedded as follows:

* A `Promise<T>` computation performed by a task run is embedded as
  `ExecM ω ε τ := List ω × Except ε τ`: a finite log of observations of
  type `ω` (which sub-computations ran, with which diagnostic
  environment, which command was dispatched) together with either a
  resolved value or a rejection.  `await` / promise chaining is
  `ExecM.bind`: the awaited computation's log is emitted first and a
  rejection short-circuits, exactly as an `async` function body does.
* `TaskEnvironment` and `Task<T>` (`class TaskImpl`) become structures;
  `run` is the function field.  TypeScript `string | null` task names
  become `Option String`; JavaScript truthiness of `name` in
  `combineName` (both `null` and `""` are falsy) is modelled explicitly.
* The external process/watch adapters (child_process, chokidar) are
  parameters of the embedded functions, per the interfaces the core
  needs.
-/

namespace Ntx

/-- The observable result of one promise computation: a log of
observations (in chronological order) and a resolved value or
rejection. -/
abbrev ExecM (ω ε τ : Type) := List ω × Except ε τ

/-- A computation that immediately resolves, with no observation. -/
def ExecM.pure {ω ε τ : Type} (v : τ) : ExecM ω ε τ := ([], Except.ok v)

/-- Promise sequencing (`await m; f`): `m`'s observations happen first;
its rejection short-circuits, skipping `f` entirely. -/
def ExecM.bind {ω ε α β : Type} (m : ExecM ω ε α) (f : α → ExecM ω ε β) : ExecM ω ε β :=
  match m with
  | (log, Except.error e) => (log, Except.error e)
  | (log, Except.ok a) =>
    let r := f a
    (log ++ r.1, r.2)

/-- `interface TaskEnvironment { readonly name: string }`. -/
structure TaskEnvironment where
  name : String
deriving DecidableEq

/-- `combineName(env, name)` (index.ts line 60-61):
`name ? { ...env, name: env.name + "." + name } : env`.
`null` and the empty string are both falsy in JavaScript. -/
def combineName (env : TaskEnvironment) (name : Option String) : TaskEnvironment :=
  match name with
  | some n => if n = "" then env else { env with name := env.name ++ "." ++ n }
  | none => env

/-- `class TaskImpl<T>`: a name (`string | null`) and a `run` function. -/
structure Task (ω ε τ : Type) where
  name : Option String
  run : TaskEnvironment → ExecM ω ε τ

/-- `toTask(run)`: an anonymous task with the given run function. -/
def toTask {ω ε τ : Type} (run : TaskEnvironment → ExecM ω ε τ) : Task ω ε τ :=
  { name := none, run := run }

/-- `withName(name)`: same run function, new name. -/
def Task.withName {ω ε τ : Type} (t : Task ω ε τ) (name : Option String) : Task ω ε τ :=
  { name := name, run := t.run }

/-- `TaskImpl.then(continuation)` (source method name `then`, a Lean
keyword): keeps `this.name`; its run awaits `this.run(combineName(e,
this.name))` and then returns `continuation.run(combineName(e,
continuation.name))`. -/
def Task.andThen {ω ε υ : Type} (a : Task ω ε PUnit) (b : Task ω ε υ) : Task ω ε υ :=
  { name := a.name,
    run := fun e =>
      ExecM.bind (a.run (combineName e a.name)) fun _ =>
        b.run (combineName e b.name) }

/-- `TaskImpl.let(continuation)` (source method name `let`, a Lean
keyword): `toTask(async e => { const t = continuation(await
this.run(combineName(e, this.name))); return t.run(combineName(e,
t.name)) })`. -/
def Task.letTask {ω ε τ υ : Type} (a : Task ω ε τ) (f : τ → Task ω ε υ) : Task ω ε υ :=
  toTask fun e =>
    ExecM.bind (a.run (combineName e a.name)) fun v =>
      (f v).run (combineName e (f v).name)

/-- A leaf task that records the diagnostic name of the environment it
is run with and resolves with `v`; used to observe which environment a
combinator hands to its sub-tasks. -/
def probe {ε τ : Type} (name : Option String) (v : τ) : Task String ε τ :=
  { name := name, run := fun e => ([e.name], Except.ok v) }

/-- `es.map((e, i) => ({ ...e, name: env.name + "." + (i+1) }))` inside
`allArray`: JavaScript `Array.prototype.map` with the index argument,
starting at `i`.  A `TaskEnvironment` has only the `name` field, so the
spread contributes nothing else. -/
def reindex (parent : String) : Nat → List TaskEnvironment → List TaskEnvironment
  | _, [] => []
  | i, _e :: rest => { name := parent ++ "." ++ toString (i + 1) } :: reindex parent (i + 1) rest

/-- The per-task environments computed by `allArray`'s run function
(index.ts lines 110-113): derive each by `combineName`; if the derived
names are not pairwise distinct (`new Set(names).size !== es.length`),
replace every one with `env.name + "." + (i+1)`. -/
def allEnvs (env : TaskEnvironment) (names : List (Option String)) : List TaskEnvironment :=
  let es := names.map fun n => combineName env n
  if (es.map TaskEnvironment.name).dedup.length ≠ es.length then
    reindex env.name 0 es
  else es

/-- `Promise.all(tasks.map((t, i) => t.run(es[i])))`: every task is run
with its assigned environment and the results are returned in input
order; the first rejection propagates.  The genuinely concurrent
interleaving of the sub-promises is adapter-level behaviour; the model
serialises the observation logs in input order, which preserves which
environment each task receives, the result order, and failure
propagation. -/
def runAll {ω ε τ : Type} : List (Task ω ε τ × TaskEnvironment) → ExecM ω ε (List τ)
  | [] => ExecM.pure []
  | (t, e) :: rest =>
    ExecM.bind (t.run e) fun v =>
      ExecM.bind (runAll rest) fun vs =>
        ExecM.pure (v :: vs)

/-- `allArray(tasks)` (index.ts lines 107-116).  `tasks[0].name` on an
empty array evaluates `undefined.name` and throws a `TypeError` before
any Task is constructed, so construction is fallible in the model.  (On
a non-empty array `tasks[0].name` is `string | null`, so the
`name1 === void 0` guard never fires.) -/
def allArray {ω ε τ : Type} (tasks : List (Task ω ε τ)) : Except String (Task ω ε (List τ)) :=
  match tasks with
  | [] => Except.error "TypeError: Cannot read property of undefined"
  | t0 :: rest =>
    Except.ok
      { name := t0.name,
        run := fun env =>
          runAll ((t0 :: rest).zip (allEnvs env ((t0 :: rest).map Task.name))) }

/-- The first argument of the overloaded `all` entry point: an array of
tasks, a single task (variadic call), or `undefined` (a call with zero
arguments). -/
inductive AllArg (ω ε τ : Type) where
  | arr (tasks : List (Task ω ε τ))
  | single (t : Task ω ε τ)
  | undef
deriving Inhabited

/-- `all(taskArrayOrTask1, ...tasksTail)` (index.ts lines 132-140):
dispatch on `Array.isArray`.  With zero arguments the first parameter is
`undefined`, `Array.isArray(undefined)` is false, `undefined` is
unshifted onto the tail, and `allArray`'s `tasks[0].name` then throws the
`TypeError` on that `undefined` element. -/
def all {ω ε τ : Type} (arg1 : AllArg ω ε τ) (tasksTail : List (Task ω ε τ)) :
    Except String (Task ω ε (List τ)) :=
  match arg1 with
  | AllArg.arr tasks => allArray tasks
  | AllArg.single t => allArray (t :: tasksTail)
  | AllArg.undef => Except.error "TypeError: Cannot read property of undefined"

/-- `Except.isOk` spelt out, to state construction-time success. -/
def isOkE {ε α : Type} : Except ε α → Bool
  | Except.ok _ => true
  | Except.error _ => false

/-- The process-wide environment-variable store `process.env`: a map
from variable names to values (`none` = the variable is unset). -/
def EnvMap : Type := String → Option String

/-- `process.env[key] = v` for a definite string `v`.  Node implicitly
converts every assigned value to a string, so an assignment always
leaves the variable set; the source never deletes a variable. -/
def setEnv (env : EnvMap) (key : String) (v : String) : EnvMap :=
  fun k => if k = key then some v else env k

/-- `overrideEnvAsync(key, value, action)` (index.ts lines 145-151).
The action reads and may mutate the store and either resolves or
rejects.  The source has no try/finally: the restoring assignment
`process.env[key] = oldValue` is the statement after `await action()`,
so it executes only when the action resolves; a rejection propagates out
of the async function first and the store is left as the action left
it.  The restore assigns `oldValue : string | undefined`, and Node
string-coerces the assigned value: when the variable was previously
unset (`oldValue` is `undefined`) the restore stores the literal string
`"undefined"` rather than unsetting the variable — modelled by
`Option.getD "undefined"`. -/
def overrideEnvAsync {ε τ : Type} (key value : String)
    (action : EnvMap → Except ε τ × EnvMap) (env : EnvMap) : Except ε τ × EnvMap :=
  let oldValue := env key
  let env1 := setEnv env key value
  match action env1 with
  | (Except.ok result, env2) => (Except.ok result, setEnv env2 key (oldValue.getD "undefined"))
  | (Except.error e, env2) => (Except.error e, env2)

/-- One interpolated value of the command template `r` (index.ts line
153): a literal string, a pending string value (`Promise<string>`), or a
`Task<string>`. -/
inductive Interp (ω ε : Type) where
  | str (s : String)
  | promise (p : ExecM ω ε String)
  | task (t : Task ω ε String)

/-- Resolving one interpolated value inside `r`'s run (index.ts lines
157-160): a literal is used as-is, a promise is awaited, and a task is
run **with the template's current environment `e` unchanged**
(`await v.run(e)`). -/
def evalInterp {ω ε : Type} (e : TaskEnvironment) : Interp ω ε → ExecM ω ε String
  | Interp.str s => ExecM.pure s
  | Interp.promise p => p
  | Interp.task t => t.run e

/-- The loop of `r`'s run (index.ts lines 154-164): for each
interpolation in template order, await its string and push it followed by
the next literal segment.  A tagged template always has one more literal
segment than interpolations, so the template is modelled as a head
literal plus (interpolation, following-literal) pairs. -/
def buildParts {ω ε : Type} (e : TaskEnvironment) :
    List (Interp ω ε × String) → ExecM ω ε (List String)
  | [] => ExecM.pure []
  | (v, s) :: rest =>
    ExecM.bind (evalInterp e v) fun sv =>
      ExecM.bind (buildParts e rest) fun tail =>
        ExecM.pure (sv :: s :: tail)

/-- The command-template task `r` (index.ts lines 153-180): resolve the
interpolations left to right, join the parts into the command line
(`xs.join("")`), and hand the command to the process-execution adapter.
`spawn` stands for the external block `console.log(name + "> " +
command); overrideEnvAsync("path", ..., () => spawnAsync(command, ...))`
— the process adapter of §2 of the design, a parameter here. -/
def r {ω ε : Type} (spawn : String → ExecM ω ε PUnit) (head : String)
    (parts : List (Interp ω ε × String)) : Task ω ε PUnit :=
  toTask fun e =>
    ExecM.bind (buildParts e parts) fun xs =>
      spawn (String.join (head :: xs))

/-- JavaScript `\w` character class: `[A-Za-z0-9_]`. -/
def isWordChar (c : Char) : Bool := c.isAlphanum || c = '_'

/-- The unanchored test `/\w[\w:]*/.test(name0)`: true exactly when the
string contains at least one word character (one `\w` followed by zero
or more `[\w:]` matches anywhere in the string). -/
def testWordName (s : String) : Bool := s.data.any isWordChar

/-- `getAvailableTasksMessage(ks)` (index.ts line 191):
`"available tasks: " + ks.map(k => "'" + k + "'").join(" ")`. -/
def getAvailableTasksMessage (ks : List String) : String :=
  "available tasks: " ++ String.intercalate " " (ks.map fun k => "\x27" ++ k ++ "\x27")

/-- `tasks[taskName]` on a plain object with `Object.keys` order
`tasks.map Prod.fst`; `taskNames.indexOf(taskName) === -1` is
equivalent to this lookup returning `none`. -/
def lookupTask {β : Type} : List (String × β) → String → Option β
  | [], _ => none
  | (k, v) :: rest, key => if k = key then some v else lookupTask rest key

/-- The root environment `{ name }` used by `TaskImpl.start` (index.ts
line 101): `const name = this.name || "_"` — both `null` and `""` are
falsy. -/
def startRootEnv {ω ε : Type} (t : Task ω ε PUnit) : TaskEnvironment :=
  { name :=
      match t.name with
      | some n => if n = "" then "_" else n
      | none => "_" }

/-- `TaskImpl.start` (index.ts lines 100-104): run the task with the
root environment (the `console.log` banner and the `handleError` catch
are the console adapter). -/
def startTask {ω ε : Type} (t : Task ω ε PUnit) : ExecM ω ε PUnit :=
  t.run (startRootEnv t)

/-- `startAsync` (index.ts lines 185-202).  `scriptName` is
`path.basename(process.argv[1])`; `argv2` is `process.argv[2]` (`none` =
absent); `tasks` is the task mapping in key order (the asynchronous
factory variant is awaited first and changes nothing else).  The success
branch `task.withName(taskName).start()` is modelled by returning the
renamed task; `startTask` gives the execution it launches. -/
def startAsync {ω ε : Type} (scriptName : String) (argv2 : Option String)
    (tasks : List (String × Task ω ε PUnit)) : Except String (Task ω ε PUnit) :=
  let taskNames := tasks.map Prod.fst
  match argv2 with
  | none =>
    let egName :=
      match taskNames.head? with
      | none => "any_task_name"
      | some name0 =>
        if name0 = "" then "any_task_name"
        else if testWordName name0 then name0
        else "\x27" ++ name0 ++ "\x27"
    Except.error ("require task name. e.g. \x60node " ++ scriptName ++ " " ++ egName
      ++ "\x60. " ++ getAvailableTasksMessage taskNames ++ ".")
  | some taskName =>
    match lookupTask tasks taskName with
    | none =>
      Except.error ("task \x27" ++ taskName ++ "\x27 is not defined. "
        ++ getAvailableTasksMessage taskNames ++ ".")
    | some task => Except.ok (task.withName (some taskName))

/-- `a == b` elementwise check that `sub` starts the list `s`. -/
def charsLead : List Char → List Char → Bool
  | [], _ => true
  | _ :: _, [] => false
  | a :: as, b :: bs => a = b && charsLead as bs

/-- `sub` occurs contiguously somewhere in `s`. -/
def charsHasSub (sub : List Char) : List Char → Bool
  | [] => charsLead sub []
  | b :: bs => charsLead sub (b :: bs) || charsHasSub sub bs

/-- Substring containment on strings, for the "message containing ..."
clauses. -/
def strHasSub (sub s : String) : Bool := charsHasSub sub.data s.data

/-! ## The watch state machine (index.ts lines 85-98)

`TaskImpl.watch` returns a task whose run creates `new Promise<never>((_resolve,
reject) => ...)`: the resolve function is never used, so the promise can
only settle by rejection.  The body keeps `last = Promise.resolve()`,
subscribes `w.once("error", e => { w.removeAllListeners(); w.close();
reject(e) })`, and on every change notification executes `last =
last.then(() => this.run(env)).catch(reject)`.

The model is a small-step machine driven by an external event trace:

* `WEvt.trigger` — the watch adapter delivers a change notification
  (the `"all"` handler runs, chaining one more run of the wrapped task).
* `WEvt.finish` — the run currently in flight completes (its promise
  settles; `runFails i` says whether the `i`-th run, 0-based in chain
  order, rejects and with which error).
* `WEvt.aerror e` — the watch adapter reports an error (handled at most
  once: the handler detaches every listener, so `listening` becomes
  false and later adapter events are ignored).

`pump` is the microtask that starts the next chained run as soon as the
previous chain link has settled; chained runs keep executing even after
the outer promise has settled or the adapter has been closed, because
promise chains are not cancelled.  `settle` is a `reject` call: only the
first one takes effect.  The trace records each run's begin and end so
that serialisation and ordering are observable. -/

/-- External events driving one execution of a watch task. -/
inductive WEvt (ε : Type) where
  | trigger
  | finish
  | aerror (e : ε)
deriving DecidableEq

/-- How the watch task's never-resolving promise can settle: only by
rejection, either with the adapter's error or — through the
`.catch(reject)` on the serialized chain — with the error of the `i`-th
run of the wrapped task. -/
inductive WatchOutcome (ε : Type) where
  | adapterErr (e : ε)
  | taskErr (i : Nat) (e : ε)
deriving DecidableEq

/-- Observable begin/end of the `i`-th invocation of the wrapped task's
run. -/
inductive RunEvt where
  | rbegin (i : Nat)
  | rend (i : Nat)
deriving DecidableEq

/-- State of one execution of a watch task. -/
structure WatchState (ε : Type) where
  /-- The outer promise's settlement (`none` = still pending). -/
  settled : Option (WatchOutcome ε)
  /-- Listeners attached: false after the once-error handler ran
  `removeAllListeners()` and `close()`. -/
  listening : Bool
  /-- Runs chained onto `last` but not yet started. -/
  queued : Nat
  /-- Index of the run currently in flight, if any. -/
  running : Option Nat
  /-- Index the next started run will get (= number of begun runs). -/
  nextIdx : Nat
  /-- Chronological begin/end events of the wrapped task's runs. -/
  trace : List RunEvt
deriving DecidableEq

/-- The initial state of `run`: pending promise, listeners attached,
`last = Promise.resolve()`, nothing running. -/
def initWatch {ε : Type} : WatchState ε :=
  { settled := none, listening := true, queued := 0, running := none,
    nextIdx := 0, trace := [] }

/-- A `reject(o)` call: settles the outer promise with `o` unless it
already settled (only the first rejection takes effect). -/
def settle {ε : Type} (s : WatchState ε) (o : WatchOutcome ε) : WatchState ε :=
  { s with settled := some (s.settled.getD o) }

/-- The microtask pump: when no run is in flight and a chained run is
waiting, it starts (the `.then` callback of the already-settled previous
link fires). -/
def pump {ε : Type} (s : WatchState ε) : WatchState ε :=
  match s.running, s.queued with
  | none, q + 1 =>
    { s with running := some s.nextIdx, queued := q, nextIdx := s.nextIdx + 1,
             trace := s.trace ++ [RunEvt.rbegin s.nextIdx] }
  | _, _ => s

/-- One event step of the watch machine. -/
def stepW {ε : Type} (runFails : Nat → Option ε) (s : WatchState ε) : WEvt ε → WatchState ε
  | WEvt.trigger =>
    if s.listening then pump { s with queued := s.queued + 1 } else s
  | WEvt.aerror e =>
    if s.listening then settle { s with listening := false } (WatchOutcome.adapterErr e)
    else s
  | WEvt.finish =>
    match s.running with
    | none => s
    | some i =>
      let s1 := { s with running := none, trace := s.trace ++ [RunEvt.rend i] }
      let s2 :=
        match runFails i with
        | some e => settle s1 (WatchOutcome.taskErr i e)
        | none => s1
      pump s2

/-- Run the watch machine over an event trace from the initial state. -/
def runW {ε : Type} (runFails : Nat → Option ε) (evts : List (WEvt ε)) : WatchState ε :=
  evts.foldl (stepW runFails) initWatch

/-- Number of change notifications in an event trace. -/
def countTriggers {ε : Type} (evts : List (WEvt ε)) : Nat :=
  evts.countP fun ev =>
    match ev with
    | WEvt.trigger => true
    | _ => false

/-- Whether an event is an adapter error. -/
def isAerror {ε : Type} : WEvt ε → Bool
  | WEvt.aerror _ => true
  | _ => false

/-- The fully serialized trace of `n` completed runs:
begin 0, end 0, begin 1, end 1, …, begin (n-1), end (n-1). -/
def canonical : Nat → List RunEvt
  | 0 => []
  | n + 1 => canonical n ++ [RunEvt.rbegin n, RunEvt.rend n]

/-- Invariant of the watch machine on adapter-error-free traces, with
`n` the number of change notifications processed so far: listeners stay
attached, every notification is accounted for as a begun or still-queued
run, and the trace is the serialized begin/end sequence (with at most
the latest run still open). -/
def InvW {ε : Type} (s : WatchState ε) (n : Nat) : Prop :=
  s.listening = true ∧ s.nextIdx + s.queued = n ∧
  (match s.running with
   | some i => s.nextIdx = i + 1 ∧ s.trace = canonical i ++ [RunEvt.rbegin i]
   | none => s.trace = canonical s.nextIdx)

/-! ## Theorems -/

theorem ExecM.bind_ok {ω ε α β : Type} (l : List ω) (v : α) (f : α → ExecM ω ε β) :
    ExecM.bind (l, Except.ok v) f = (l ++ (f v).1, (f v).2) := rfl

theorem ExecM.bind_err {ω ε α β : Type} (l : List ω) (e : ε) (f : α → ExecM ω ε β) :
    ExecM.bind (l, Except.error e) f = (l, Except.error e) := rfl

/-- C1 (amended): `a.let(f).run(env)` first runs `a` with
`combineName(env, a.name)`, awaits its value `v`, obtains `t = f(v)`,
and then runs `t` with `combineName(env, t.name)` — the environment
derived from the **original** `env` by `t`'s name only; `a`'s name is
not part of `t`'s environment — returning `t`'s result; a failure of
`a` propagates and `t` is never obtained; the composite task is
anonymous. -/
theorem letTask_spec {ω ε τ υ : Type} (a : Task ω ε τ) (f : τ → Task ω ε υ)
    (env : TaskEnvironment) :
    (Task.letTask a f).name = none ∧
    (∀ (la : List ω) (v : τ), a.run (combineName env a.name) = (la, Except.ok v) →
      (Task.letTask a f).run env
        = (la ++ ((f v).run (combineName env (f v).name)).1,
           ((f v).run (combineName env (f v).name)).2)) ∧
    (∀ (la : List ω) (err : ε), a.run (combineName env a.name) = (la, Except.error err) →
      (Task.letTask a f).run env = (la, Except.error err)) := by
  refine ⟨rfl, ?_, ?_⟩
  · intro la v h
    simp [Task.letTask, toTask, ExecM.bind, h]
  · intro la err h
    simp [Task.letTask, toTask, ExecM.bind, h]

/-- C1 counterexample: with `a = probe "a"`, `f _ = probe "t"` and
`env.name = "e"`, the continuation task observes the environment name
`"e.t"`, whereas the claimed environment
`combineName(combineName(env, a.name), t.name)` has name `"e.a.t"`. -/
theorem letTask_claim_cx :
    ((Task.letTask (probe (some "a") (0 : Nat)) (fun _ => probe (some "t") (1 : Nat))
        : Task String String Nat).run { name := "e" }
      = (["e.a", "e.t"], Except.ok 1)) ∧
    (combineName (combineName { name := "e" } (some "a")) (some "t")).name = "e.a.t" ∧
    ("e.t" : String) ≠ "e.a.t" :=
  ⟨rfl, rfl, by decide⟩

/-- C1 witness: `letTask_spec` applied to the probe tasks at
`env.name = "e"`. -/
theorem letTask_spec_witness :
    ((Task.letTask (probe (some "a") (0 : Nat)) (fun _ => probe (some "t") (1 : Nat))
        : Task String String Nat).run { name := "e" }
      = (["e.a"] ++ ["e.t"], Except.ok 1)) :=
  (letTask_spec (probe (some "a") (0 : Nat)) (fun _ => probe (some "t") (1 : Nat))
      { name := "e" }).2.1 ["e.a"] 0 rfl

/-- C6: `a.then(b).run(env)` first runs `a` with `env` derived by `a`'s
name, awaits its completion, then runs `b` with `env` derived by `b`'s
name and returns `b`'s result; if `a` fails, the failure propagates and
the result does not depend on `b` at all (`b` is never run); and the
name of `a.then(b)` is `a`'s name. -/
theorem andThen_spec {ω ε υ : Type} (a : Task ω ε PUnit) (b : Task ω ε υ)
    (env : TaskEnvironment) :
    (Task.andThen a b).name = a.name ∧
    (∀ (la : List ω) (v : PUnit), a.run (combineName env a.name) = (la, Except.ok v) →
      (Task.andThen a b).run env
        = (la ++ (b.run (combineName env b.name)).1, (b.run (combineName env b.name)).2)) ∧
    (∀ (la : List ω) (err : ε), a.run (combineName env a.name) = (la, Except.error err) →
      (Task.andThen a b).run env = (la, Except.error err) ∧
      ∀ b' : Task ω ε υ, (Task.andThen a b).run env = (Task.andThen a b').run env) := by
  refine ⟨rfl, ?_, ?_⟩
  · intro la v h
    simp [Task.andThen, ExecM.bind, h]
  · intro la err h
    constructor
    · simp [Task.andThen, ExecM.bind, h]
    · intro b'
      simp [Task.andThen, ExecM.bind, h]

/-- C6 witness: `andThen_spec` applied to probe tasks at
`env.name = "e"`. -/
theorem andThen_spec_witness :
    ((Task.andThen (probe (some "a") PUnit.unit) (probe (some "b") (7 : Nat))
        : Task String String Nat).run { name := "e" }
      = (["e.a"] ++ ["e.b"], Except.ok 7)) :=
  (andThen_spec (probe (some "a") PUnit.unit) (probe (some "b") (7 : Nat))
      { name := "e" }).2.1 ["e.a"] PUnit.unit rfl

/-- C3 (amended): `overrideEnvAsync(k, v, action)` sets `k` to `v` for
the action; when the action **succeeds**, `k` is assigned the saved
prior value under Node's string coercion — the prior string when the
variable was set, the literal string `"undefined"` when it was
previously unset — other keys keep whatever the action left, and the
action's result is returned; when the action **fails**, the rejection
propagates before the restoring assignment runs, so the store is
returned exactly as the action left it — `k` is not restored on the
failure path. -/
theorem overrideEnv_spec {ε τ : Type} (key value : String)
    (action : EnvMap → Except ε τ × EnvMap) (env : EnvMap) :
    (∀ (res : τ) (env2 : EnvMap),
        action (setEnv env key value) = (Except.ok res, env2) →
        (overrideEnvAsync key value action env).1 = Except.ok res ∧
        (overrideEnvAsync key value action env).2 key = some ((env key).getD "undefined") ∧
        (∀ w, env key = some w → (overrideEnvAsync key value action env).2 key = some w) ∧
        (env key = none →
          (overrideEnvAsync key value action env).2 key = some "undefined") ∧
        ∀ k2, k2 ≠ key → (overrideEnvAsync key value action env).2 k2 = env2 k2) ∧
    (∀ (err : ε) (env2 : EnvMap),
        action (setEnv env key value) = (Except.error err, env2) →
        overrideEnvAsync key value action env = (Except.error err, env2)) := by
  constructor
  · intro res env2 h
    refine ⟨?_, ?_, ?_, ?_, ?_⟩
    · simp [overrideEnvAsync, h]
    · simp [overrideEnvAsync, h, setEnv]
    · intro w hw
      simp [overrideEnvAsync, h, setEnv, hw]
    · intro hn
      simp [overrideEnvAsync, h, setEnv, hn]
    · intro k2 hk2
      simp [overrideEnvAsync, h, setEnv, hk2]
  · intro err env2 h
    simp [overrideEnvAsync, h]

/-- C3 counterexample: with `K` previously `"old"` and an action that
rejects without touching the store, the final store still has `K = "v"`:
the prior value is not restored on the failure path. -/
theorem overrideEnv_claim_cx :
    ((overrideEnvAsync "K" "v"
        (fun e => ((Except.error "boom" : Except String Nat), e))
        (fun _ => some "old")).2 "K" = some "v") ∧
    ((some "v" : Option String) ≠ some "old") :=
  ⟨rfl, by decide⟩

/-- C3 witness: `overrideEnv_spec` applied to succeeding actions: the
result is returned, a previously-set `K` is restored to `"old"`, and a
previously-unset `K` comes back as the coerced string `"undefined"`. -/
theorem overrideEnv_spec_witness :
    ((overrideEnvAsync "K" "v"
        (fun e => ((Except.ok (3 : Nat) : Except String Nat), e))
        (fun _ => some "old")).1 = Except.ok 3 ∧
     (overrideEnvAsync "K" "v"
        (fun e => ((Except.ok (3 : Nat) : Except String Nat), e))
        (fun _ => some "old")).2 "K" = some "old") ∧
    (overrideEnvAsync "K" "v"
        (fun e => ((Except.ok (3 : Nat) : Except String Nat), e))
        (fun _ => none)).2 "K" = some "undefined" :=
  let h1 := (overrideEnv_spec "K" "v"
      (fun e => ((Except.ok (3 : Nat) : Except String Nat), e))
      (fun _ => some "old")).1 3 (setEnv (fun _ => some "old") "K" "v") rfl
  let h2 := (overrideEnv_spec "K" "v"
      (fun e => ((Except.ok (3 : Nat) : Except String Nat), e))
      (fun _ => none)).1 3 (setEnv (fun _ => none) "K" "v") rfl
  ⟨⟨h1.1, h1.2.2.1 "old" rfl⟩, h2.2.2.2.1 rfl⟩

theorem reindex_eq (parent : String) (es : List TaskEnvironment) :
    ∀ k : Nat, reindex parent k es
      = (List.range es.length).map
          (fun i => ({ name := parent ++ "." ++ toString (k + i + 1) } : TaskEnvironment)) := by
  induction es with
  | nil => intro k; rfl
  | cons e rest ih =>
    intro k
    show ({ name := parent ++ "." ++ toString (k + 1) } : TaskEnvironment)
        :: reindex parent (k + 1) rest = _
    rw [List.length_cons, List.range_succ_eq_map, List.map_cons, List.map_map, ih (k + 1)]
    congr 1
    apply List.map_congr_left
    intro a _
    have h1 : k + 1 + a + 1 = k + (a + 1) + 1 := by omega
    show ({ name := parent ++ "." ++ toString (k + 1 + a + 1) } : TaskEnvironment)
        = { name := parent ++ "." ++ toString (k + (a + 1) + 1) }
    rw [h1]

/-- C4: `allArray`'s run derives each sibling environment by the
standard rule; if two derived environments share a name string, every
sibling instead gets `{env.name}.{i}` with 1-based index `i` in array
order; and a task built from a non-empty list runs its members with
exactly these environments. -/
theorem allEnvs_spec {ω ε τ : Type} (env : TaskEnvironment) (names : List (Option String)) :
    ((∃ i j : Fin (names.map fun n => (combineName env n).name).length,
        i ≠ j ∧ (names.map fun n => (combineName env n).name).get i
              = (names.map fun n => (combineName env n).name).get j) →
      allEnvs env names
        = (List.range names.length).map
            (fun i => ({ name := env.name ++ "." ++ toString (i + 1) } : TaskEnvironment))) ∧
    ((names.map fun n => (combineName env n).name).Nodup →
      allEnvs env names = names.map fun n => combineName env n) ∧
    (∀ (t0 : Task ω ε τ) (ts : List (Task ω ε τ)),
      allArray (t0 :: ts)
        = Except.ok
            { name := t0.name,
              run := fun env2 =>
                runAll ((t0 :: ts).zip (allEnvs env2 ((t0 :: ts).map Task.name))) }) := by
  have hm : (names.map fun n => combineName env n).map TaskEnvironment.name
      = names.map fun n => (combineName env n).name := by
    rw [List.map_map]; rfl
  refine ⟨?_, ?_, fun t0 ts => rfl⟩
  · intro h
    have hnd : ¬ (names.map fun n => (combineName env n).name).Nodup := by
      intro hn
      obtain ⟨i, j, hij, hget⟩ := h
      exact hij (List.nodup_iff_injective_get.mp hn hget)
    unfold allEnvs
    rw [if_pos]
    · rw [reindex_eq, List.length_map]
      apply List.map_congr_left
      intro a _
      congr 3
      omega
    · rw [hm, List.length_map]
      intro hlen
      apply hnd
      have hlen2 : (names.map fun n => (combineName env n).name).dedup.length
          = (names.map fun n => (combineName env n).name).length := by
        rw [List.length_map]; exact hlen
      have heq := ((names.map fun n => (combineName env n).name).dedup_sublist).eq_of_length hlen2
      rw [← heq]
      exact List.nodup_dedup _
  · intro hn
    unfold allEnvs
    rw [if_neg]
    rw [hm, List.length_map]
    intro hne
    apply hne
    rw [List.Nodup.dedup hn, List.length_map]

/-- C4 witness: two siblings both named `"x"` under parent `"p"` derive
the same name `"p.x"`, so both are renamed positionally. -/
theorem allEnvs_spec_witness :
    allEnvs { name := "p" } [some "x", some "x"]
      = [{ name := "p.1" }, { name := "p.2" }] :=
  (@allEnvs_spec PUnit PUnit PUnit { name := "p" } [some "x", some "x"]).1
    ⟨⟨0, by decide⟩, ⟨1, by decide⟩, by decide, rfl⟩

/-- C9: `all` requires a non-empty task list: on an empty array (or a
call with zero variadic arguments) construction fails with the
`TypeError` from `tasks[0].name`; on any non-empty list (array form or
variadic form) construction succeeds. -/
theorem all_nonempty_spec {ω ε τ : Type} :
    (isOkE (allArray ([] : List (Task ω ε τ))) = false) ∧
    (isOkE (all (AllArg.undef : AllArg ω ε τ) []) = false) ∧
    (∀ (t : Task ω ε τ) (ts : List (Task ω ε τ)), isOkE (allArray (t :: ts)) = true) ∧
    (∀ (t : Task ω ε τ) (ts tail2 : List (Task ω ε τ)),
      isOkE (all (AllArg.single t) tail2) = true ∧
      isOkE (all (AllArg.arr (t :: ts)) tail2) = true) :=
  ⟨rfl, rfl, fun _ _ => rfl, fun _ _ _ => ⟨rfl, rfl⟩⟩

/-- C7: the CLI entry fails exactly when the task-name argument is
absent or is not a key of the mapping; the usage message for
`{build, test}` contains `available tasks: 'build' 'test'`; the unknown
name `"deploy"` yields a message containing `task 'deploy' is not
defined`; and a defined name is assigned to the task via `withName`
(whose start then uses that name as the root environment). -/
theorem startAsync_spec {ω ε : Type} :
    (∀ (scriptName : String) (tasks : List (String × Task ω ε PUnit)),
        isOkE (startAsync scriptName none tasks) = false) ∧
    (∀ (scriptName : String) (tasks : List (String × Task ω ε PUnit)) (k : String),
        lookupTask tasks k = none → isOkE (startAsync scriptName (some k) tasks) = false) ∧
    (∀ (scriptName : String) (tasks : List (String × Task ω ε PUnit)) (k : String)
        (t : Task ω ε PUnit),
        lookupTask tasks k = some t →
        startAsync scriptName (some k) tasks = Except.ok (t.withName (some k)) ∧
        (k ≠ "" → startRootEnv (t.withName (some k)) = { name := k })) ∧
    (startAsync "tasks.js" none
        [("build", (toTask fun _ => ExecM.pure PUnit.unit : Task PUnit PUnit PUnit)),
         ("test", toTask fun _ => ExecM.pure PUnit.unit)]
      = Except.error
          "require task name. e.g. \x60node tasks.js build\x60. available tasks: \x27build\x27 \x27test\x27." ∧
     strHasSub "available tasks: \x27build\x27 \x27test\x27"
        "require task name. e.g. \x60node tasks.js build\x60. available tasks: \x27build\x27 \x27test\x27."
      = true) ∧
    (startAsync "tasks.js" (some "deploy")
        [("build", (toTask fun _ => ExecM.pure PUnit.unit : Task PUnit PUnit PUnit)),
         ("test", toTask fun _ => ExecM.pure PUnit.unit)]
      = Except.error
          "task \x27deploy\x27 is not defined. available tasks: \x27build\x27 \x27test\x27." ∧
     strHasSub "task \x27deploy\x27 is not defined"
        "task \x27deploy\x27 is not defined. available tasks: \x27build\x27 \x27test\x27."
      = true) := by
  refine ⟨fun scriptName tasks => rfl, ?_, ?_, ⟨?_, ?_⟩, ⟨?_, ?_⟩⟩
  · intro scriptName tasks k h
    simp [startAsync, h, isOkE]
  · intro scriptName tasks k t h
    constructor
    · simp [startAsync, h]
    · intro hk
      simp [startRootEnv, Task.withName, hk]
  · rfl
  · rfl
  · rfl
  · rfl

/-- C7 witness: `startAsync_spec` applied at a defined task name. -/
theorem startAsync_spec_witness :
    startAsync "t.js" (some "build")
        [("build", (toTask fun _ => ExecM.pure PUnit.unit : Task PUnit PUnit PUnit))]
      = Except.ok
          ((toTask fun _ => ExecM.pure PUnit.unit : Task PUnit PUnit PUnit).withName
            (some "build")) :=
  ((@startAsync_spec PUnit PUnit).2.2.1 "t.js"
      [("build", toTask fun _ => ExecM.pure PUnit.unit)] "build"
      (toTask fun _ => ExecM.pure PUnit.unit) rfl).1

theorem join_cons (a : String) (l : List String) : String.join (a :: l) = a ++ String.join l := by
  apply String.ext
  simp [String.join_eq]

theorem ExecM.pure_bind {ω ε α β : Type} (v : α) (f : α → ExecM ω ε β) :
    ExecM.bind (ExecM.pure v) f = f v := by
  simp [ExecM.bind, ExecM.pure]

theorem ExecM.bind_assoc {ω ε α β γ : Type} (m : ExecM ω ε α) (f : α → ExecM ω ε β)
    (g : β → ExecM ω ε γ) :
    ExecM.bind (ExecM.bind m f) g = ExecM.bind m fun a => ExecM.bind (f a) g := by
  obtain ⟨l, res⟩ := m
  cases res with
  | error e => rfl
  | ok a =>
    show ExecM.bind (l ++ (f a).1, (f a).2) g
        = (l ++ (ExecM.bind (f a) g).1, (ExecM.bind (f a) g).2)
    rcases hfa : f a with ⟨l2, r2⟩
    cases r2 with
    | error e => simp [ExecM.bind]
    | ok b => simp [ExecM.bind, List.append_assoc]

/-- C8: the interpolations of an `r` command template are evaluated
strictly left to right — the first is fully awaited (its observations
come first, and its failure makes the result independent of every later
interpolation and of the adapter) before the remainder is evaluated with
the resolved text absorbed into the literal prefix — and the assembled
command line is the in-order concatenation of literal segments and
resolved values: the template `echo ${"a"} && echo ${t}` dispatches the
command `echo a && echo b` when the task `t` resolves to `"b"`. -/
theorem r_spec {ω ε : Type} :
    (∀ (spawn : String → ExecM ω ε PUnit) (head : String) (v : Interp ω ε) (s : String)
        (rest : List (Interp ω ε × String)) (e : TaskEnvironment),
      (r spawn head ((v, s) :: rest)).run e
        = ExecM.bind (evalInterp e v) fun sv => (r spawn (head ++ sv ++ s) rest).run e) ∧
    (∀ (spawn spawn2 : String → ExecM ω ε PUnit) (head : String) (v : Interp ω ε) (s : String)
        (rest rest2 : List (Interp ω ε × String)) (e : TaskEnvironment) (l : List ω) (err : ε),
      evalInterp e v = (l, Except.error err) →
      (r spawn head ((v, s) :: rest)).run e = (l, Except.error err) ∧
      (r spawn head ((v, s) :: rest)).run e = (r spawn2 head ((v, s) :: rest2)).run e) ∧
    (∀ (t : Task String String String) (e : TaskEnvironment) (l : List String),
      t.run e = (l, Except.ok "b") →
      ((r (fun c => ([c], Except.ok PUnit.unit)) "echo "
          [(Interp.str "a", " && echo "), (Interp.task t, "")]).run e
        = (l ++ ["echo a && echo b"], Except.ok PUnit.unit))) := by
  refine ⟨?_, ?_, ?_⟩
  · intro spawn head v s rest e
    show ExecM.bind
        (ExecM.bind (evalInterp e v) fun sv =>
          ExecM.bind (buildParts e rest) fun tail => ExecM.pure (sv :: s :: tail))
        (fun xs => spawn (String.join (head :: xs)))
      = ExecM.bind (evalInterp e v) fun sv =>
          ExecM.bind (buildParts e rest) fun xs =>
            spawn (String.join ((head ++ sv ++ s) :: xs))
    rw [ExecM.bind_assoc]
    refine congrArg _ (funext fun sv => ?_)
    rw [ExecM.bind_assoc]
    refine congrArg _ (funext fun tail => ?_)
    rw [ExecM.pure_bind]
    congr 1
  · intro spawn spawn2 head v s rest rest2 e l err h
    constructor
    · simp [r, toTask, buildParts, h, ExecM.bind]
    · simp [r, toTask, buildParts, h, ExecM.bind]
  · intro t e l h
    simp [r, toTask, buildParts, evalInterp, ExecM.pure, ExecM.bind, h]
    rfl

/-- C8 witness: `r_spec` applied to a probe task resolving to `"b"`:
the dispatched command is the in-order concatenation. -/
theorem r_spec_witness :
    ((r (fun c => ([c], Except.ok PUnit.unit)) "echo "
        [(Interp.str "a", " && echo "), (Interp.task (probe (some "T") "b"), "")]
      : Task String String PUnit).run { name := "e" })
      = (["e"] ++ ["echo a && echo b"], Except.ok PUnit.unit) :=
  (@r_spec String String).2.2 (probe (some "T") "b") { name := "e" } ["e"] rfl

theorem pump_settled {ε : Type} (s : WatchState ε) : (pump s).settled = s.settled := by
  obtain ⟨a, b, c, d, n, t⟩ := s
  cases d <;> cases c <;> rfl

theorem pump_listening {ε : Type} (s : WatchState ε) : (pump s).listening = s.listening := by
  obtain ⟨a, b, c, d, n, t⟩ := s
  cases d <;> cases c <;> rfl

theorem countTriggers_cons {ε : Type} (ev : WEvt ε) (rest : List (WEvt ε)) :
    countTriggers (ev :: rest)
      = countTriggers rest
        + (match ev with | WEvt.trigger => 1 | _ => 0) := by
  cases ev <;> simp [countTriggers, List.countP_cons]

theorem stepW_inv_trigger {ε : Type} (runFails : Nat → Option ε) (s : WatchState ε) (n : Nat)
    (h : InvW s n) : InvW (stepW runFails s WEvt.trigger) (n + 1) := by
  obtain ⟨hl, hsum, htr⟩ := h
  obtain ⟨set, lis, q, run, ni, tr⟩ := s
  have hl2 : lis = true := hl
  subst hl2
  cases run with
  | none =>
    have hsum2 : ni + q = n := hsum
    have htr2 : tr = canonical ni := htr
    subst htr2
    show InvW
        { settled := set, listening := true, queued := q, running := some ni,
          nextIdx := ni + 1, trace := canonical ni ++ [RunEvt.rbegin ni] } (n + 1)
    exact ⟨rfl, show ni + 1 + q = n + 1 by omega, rfl, rfl⟩
  | some i =>
    have hsum2 : ni + q = n := hsum
    have hpair : ni = i + 1 ∧ tr = canonical i ++ [RunEvt.rbegin i] := htr
    show InvW
        { settled := set, listening := true, queued := q + 1, running := some i,
          nextIdx := ni, trace := tr } (n + 1)
    exact ⟨rfl, show ni + (q + 1) = n + 1 by omega, hpair.1, hpair.2⟩

theorem stepW_inv_finish {ε : Type} (runFails : Nat → Option ε) (s : WatchState ε) (n : Nat)
    (h : InvW s n) : InvW (stepW runFails s WEvt.finish) n := by
  obtain ⟨hl, hsum, htr⟩ := h
  obtain ⟨set, lis, q, run, ni, tr⟩ := s
  have hl2 : lis = true := hl
  subst hl2
  cases run with
  | none =>
    show InvW
        { settled := set, listening := true, queued := q, running := none,
          nextIdx := ni, trace := tr } n
    exact ⟨rfl, hsum, htr⟩
  | some i =>
    have hsum2 : ni + q = n := hsum
    have hpair : ni = i + 1 ∧ tr = canonical i ++ [RunEvt.rbegin i] := htr
    obtain ⟨hni, htr2⟩ := hpair
    subst hni
    subst htr2
    cases hrf : runFails i with
    | none =>
      cases q with
      | zero =>
        have hred : stepW runFails
            ⟨set, true, 0, some i, i + 1, canonical i ++ [RunEvt.rbegin i]⟩ WEvt.finish
          = ⟨set, true, 0, none, i + 1,
              (canonical i ++ [RunEvt.rbegin i]) ++ [RunEvt.rend i]⟩ := by
          simp [stepW, hrf, pump]
        rw [hred]
        refine ⟨rfl, show i + 1 + 0 = n by omega, ?_⟩
        show (canonical i ++ [RunEvt.rbegin i]) ++ [RunEvt.rend i] = canonical (i + 1)
        simp [canonical]
      | succ q2 =>
        have hred : stepW runFails
            ⟨set, true, q2 + 1, some i, i + 1, canonical i ++ [RunEvt.rbegin i]⟩ WEvt.finish
          = ⟨set, true, q2, some (i + 1), i + 2,
              ((canonical i ++ [RunEvt.rbegin i]) ++ [RunEvt.rend i])
                ++ [RunEvt.rbegin (i + 1)]⟩ := by
          simp [stepW, hrf, pump]
        rw [hred]
        refine ⟨rfl, show i + 2 + q2 = n by omega, rfl, ?_⟩
        show ((canonical i ++ [RunEvt.rbegin i]) ++ [RunEvt.rend i]) ++ [RunEvt.rbegin (i + 1)]
            = canonical (i + 1) ++ [RunEvt.rbegin (i + 1)]
        simp [canonical]
    | some err =>
      cases q with
      | zero =>
        have hred : stepW runFails
            ⟨set, true, 0, some i, i + 1, canonical i ++ [RunEvt.rbegin i]⟩ WEvt.finish
          = ⟨some (set.getD (WatchOutcome.taskErr i err)), true, 0, none, i + 1,
              (canonical i ++ [RunEvt.rbegin i]) ++ [RunEvt.rend i]⟩ := by
          simp [stepW, hrf, settle, pump]
        rw [hred]
        refine ⟨rfl, show i + 1 + 0 = n by omega, ?_⟩
        show (canonical i ++ [RunEvt.rbegin i]) ++ [RunEvt.rend i] = canonical (i + 1)
        simp [canonical]
      | succ q2 =>
        have hred : stepW runFails
            ⟨set, true, q2 + 1, some i, i + 1, canonical i ++ [RunEvt.rbegin i]⟩ WEvt.finish
          = ⟨some (set.getD (WatchOutcome.taskErr i err)), true, q2, some (i + 1), i + 2,
              ((canonical i ++ [RunEvt.rbegin i]) ++ [RunEvt.rend i])
                ++ [RunEvt.rbegin (i + 1)]⟩ := by
          simp [stepW, hrf, settle, pump]
        rw [hred]
        refine ⟨rfl, show i + 2 + q2 = n by omega, rfl, ?_⟩
        show ((canonical i ++ [RunEvt.rbegin i]) ++ [RunEvt.rend i]) ++ [RunEvt.rbegin (i + 1)]
            = canonical (i + 1) ++ [RunEvt.rbegin (i + 1)]
        simp [canonical]

theorem foldl_inv {ε : Type} (runFails : Nat → Option ε) :
    ∀ (evts : List (WEvt ε)) (s : WatchState ε) (n : Nat),
      (∀ ev ∈ evts, isAerror ev = false) → InvW s n →
      InvW (evts.foldl (stepW runFails) s) (n + countTriggers evts) := by
  intro evts
  induction evts with
  | nil =>
    intro s n _ h
    simpa [countTriggers] using h
  | cons ev rest ih =>
    intro s n hA h
    have hA2 : ∀ ev2 ∈ rest, isAerror ev2 = false :=
      fun ev2 hm => hA ev2 (List.mem_cons_of_mem _ hm)
    rw [countTriggers_cons]
    cases ev with
    | trigger =>
      have h2 := ih (stepW runFails s WEvt.trigger) (n + 1) hA2
        (stepW_inv_trigger runFails s n h)
      show InvW (rest.foldl (stepW runFails) (stepW runFails s WEvt.trigger))
          (n + (countTriggers rest + 1))
      have harith : n + (countTriggers rest + 1) = n + 1 + countTriggers rest := by omega
      rw [harith]
      exact h2
    | finish =>
      have h2 := ih (stepW runFails s WEvt.finish) n hA2 (stepW_inv_finish runFails s n h)
      show InvW (rest.foldl (stepW runFails) (stepW runFails s WEvt.finish))
          (n + (countTriggers rest + 0))
      have harith : n + (countTriggers rest + 0) = n + countTriggers rest := by omega
      rw [harith]
      exact h2
    | aerror e =>
      have := hA (WEvt.aerror e) (List.mem_cons_self _ _)
      simp [isAerror] at this

/-- C5: over any interleaving of change notifications and run
completions containing no adapter error — in particular a burst of
notifications arriving while a run is in flight — once the serialized
chain has drained (no run in flight, none queued), the wrapped task was
begun exactly once per notification, indices in trigger order, and the
observed trace is begin 0, end 0, begin 1, end 1, …: each invocation
started strictly after the previous invocation's completion, with at
most one execution in flight throughout. -/
theorem watch_serialized {ε : Type} (runFails : Nat → Option ε) (evts : List (WEvt ε))
    (hA : ∀ ev ∈ evts, isAerror ev = false)
    (hrun : (runW runFails evts).running = none)
    (hq : (runW runFails evts).queued = 0) :
    (runW runFails evts).nextIdx = countTriggers evts ∧
    (runW runFails evts).trace = canonical (countTriggers evts) := by
  have h := foldl_inv runFails evts initWatch 0 hA ⟨rfl, rfl, rfl⟩
  obtain ⟨-, hsum, htr⟩ := h
  rw [runW] at hrun hq ⊢
  rw [hrun] at htr
  rw [hq] at hsum
  simp only [Nat.add_zero, Nat.zero_add] at hsum
  exact ⟨hsum, by rw [htr, hsum]⟩

/-- C5 witness: `watch_serialized` on a burst of four notifications, the
last three arriving while the first run is in flight. -/
theorem watch_serialized_witness :
    (runW (fun _ => (none : Option String))
        [WEvt.trigger, WEvt.trigger, WEvt.trigger, WEvt.trigger,
         WEvt.finish, WEvt.finish, WEvt.finish, WEvt.finish]).nextIdx
      = countTriggers
          ([WEvt.trigger, WEvt.trigger, WEvt.trigger, WEvt.trigger,
            WEvt.finish, WEvt.finish, WEvt.finish, WEvt.finish] : List (WEvt String)) ∧
    (runW (fun _ => (none : Option String))
        [WEvt.trigger, WEvt.trigger, WEvt.trigger, WEvt.trigger,
         WEvt.finish, WEvt.finish, WEvt.finish, WEvt.finish]).trace
      = canonical
          (countTriggers
            ([WEvt.trigger, WEvt.trigger, WEvt.trigger, WEvt.trigger,
              WEvt.finish, WEvt.finish, WEvt.finish, WEvt.finish] : List (WEvt String))) :=
  watch_serialized (fun _ => (none : Option String))
    [WEvt.trigger, WEvt.trigger, WEvt.trigger, WEvt.trigger,
     WEvt.finish, WEvt.finish, WEvt.finish, WEvt.finish]
    (by decide) (by decide) (by decide)

theorem stepW_settled_of_not_listening {ε : Type} (runFails : Nat → Option ε)
    (s : WatchState ε) (ev : WEvt ε)
    (h : s.listening = false → s.settled ≠ none) :
    (stepW runFails s ev).listening = false → (stepW runFails s ev).settled ≠ none := by
  obtain ⟨set, lis, q, run, ni, tr⟩ := s
  cases ev with
  | trigger =>
    cases lis with
    | true =>
      intro hc
      rw [show (stepW runFails ⟨set, true, q, run, ni, tr⟩ WEvt.trigger)
          = pump ⟨set, true, q + 1, run, ni, tr⟩ from rfl] at hc
      rw [pump_listening] at hc
      simp at hc
    | false => exact h
  | aerror e =>
    cases lis with
    | true => intro _; simp [stepW, settle]
    | false => exact h
  | finish =>
    cases run with
    | none => exact h
    | some i =>
      intro hc
      cases hrf : runFails i with
      | some err => simp [stepW, hrf, settle, pump_settled]
      | none =>
        rw [show (stepW runFails ⟨set, lis, q, some i, ni, tr⟩ WEvt.finish).listening
            = lis from by simp [stepW, hrf, pump_listening]] at hc
        have hset := h hc
        simpa [stepW, hrf, pump_settled] using hset

theorem runW_settled_of_not_listening {ε : Type} (runFails : Nat → Option ε)
    (evts : List (WEvt ε)) :
    (runW runFails evts).listening = false → (runW runFails evts).settled ≠ none := by
  have haux : ∀ (l : List (WEvt ε)) (s : WatchState ε),
      (s.listening = false → s.settled ≠ none) →
      ((l.foldl (stepW runFails) s).listening = false
        → (l.foldl (stepW runFails) s).settled ≠ none) := by
    intro l
    induction l with
    | nil => intro s h; exact h
    | cons ev rest ih =>
      intro s h
      exact ih (stepW runFails s ev) (stepW_settled_of_not_listening runFails s ev h)
  exact haux evts initWatch (by intro hc; simp [initWatch] at hc)

/-- C2 (amended): the watch task settles — always by rejection, the
promise has no resolve path — either when the watch adapter reports an
error, or when an individual run of the wrapped task fails: the
`.catch(reject)` on the serialized chain propagates a run's rejection to
the watch task's overall promise, so a failing run also settles it. -/
theorem watch_settle_spec {ε : Type} (runFails : Nat → Option ε) (evts : List (WEvt ε)) :
    (∀ e : ε, (runW runFails (evts ++ [WEvt.aerror e])).settled ≠ none) ∧
    (∀ (i : Nat) (err : ε),
      (runW runFails evts).running = some i → runFails i = some err →
      (runW runFails (evts ++ [WEvt.finish])).settled ≠ none) := by
  constructor
  · intro e
    have hstep : runW runFails (evts ++ [WEvt.aerror e])
        = stepW runFails (runW runFails evts) (WEvt.aerror e) := by
      simp [runW, List.foldl_append]
    rw [hstep]
    cases hl : (runW runFails evts).listening with
    | true => simp [stepW, hl, settle]
    | false =>
      have hset := runW_settled_of_not_listening runFails evts hl
      simpa [stepW, hl] using hset
  · intro i err hrun hrf
    have hstep : runW runFails (evts ++ [WEvt.finish])
        = stepW runFails (runW runFails evts) WEvt.finish := by
      simp [runW, List.foldl_append]
    rw [hstep]
    simp [stepW, hrun, hrf, settle, pump_settled]

/-- C2 counterexample: a single change notification whose run fails, and
no adapter error at all: the watch task settles with the run's error,
refuting "the adapter error is the only way the Task settles". -/
theorem watch_claim_cx :
    (runW (fun i => if i = 0 then some "boom" else none)
        [WEvt.trigger, WEvt.finish]).settled
      = some (WatchOutcome.taskErr 0 "boom") ∧
    ([WEvt.trigger, WEvt.finish] : List (WEvt String)).countP isAerror = 0 :=
  ⟨by decide, by decide⟩

/-- C2 witness: `watch_settle_spec` applied to a trace whose only run
fails: the watch task is settled afterwards. -/
theorem watch_settle_spec_witness :
    (runW (fun i => if i = 0 then some ("boom" : String) else none)
        ([WEvt.trigger] ++ [WEvt.finish])).settled ≠ none :=
  (watch_settle_spec (fun i => if i = 0 then some ("boom" : String) else none)
      [WEvt.trigger]).2 0 "boom" (by decide) (by decide)

/-- C10: a Task interpolated into an `r` command template is run with
the template task's own environment unchanged (`await v.run(e)`): no
name derivation by the interpolated task's name is applied, so its
diagnostic prefix equals the template's current environment name. -/
theorem r_interp_env_spec :
    (∀ (ω ε : Type) (t : Task ω ε String) (e : TaskEnvironment),
        evalInterp e (Interp.task t) = t.run e) ∧
    (((r (fun c => ([c], Except.ok PUnit.unit)) ""
          [(Interp.task (probe (some "t") "x"), "")] : Task String String PUnit).run
        { name := "e" })
      = (["e", "x"], Except.ok PUnit.unit)) ∧
    ("e" : String) ≠ (combineName { name := "e" } (some "t")).name :=
  ⟨fun _ _ _ _ => rfl, rfl, by decide⟩

end Ntx
